import Mathlib

/-!
Verification of `sabnzbd/utils/ssdp.py` (SSDP announcer).

Shallow embedding conventions:
* Python `str` values are modelled as `List Char` (sequences of unicode code
  points); byte strings (`bytes`) as `List Nat` with every element `< 256`.
* `uuid.uuid3(uuid.NAMESPACE_DNS, name)` is implemented in full: MD5 of the
  DNS-namespace bytes followed by the UTF-8 encoding of the name, with the
  version-3 and variant bits forced, rendered in the canonical
  8-4-4-4-12 lowercase-hex form (this is what `str(self.__uuid)` interpolates).
* The `SSDP` class becomes a record; `socket.gethostname()` is an ambient
  parameter `myhostname` of the constructor.  The module-level state
  (`__SSDP`, thread aliveness) is a list of `(instance, is_alive)` pairs whose
  head is the currently tracked instance; the blocking thread join inside
  `stop_ssdp` is modelled as the
  aliveness bit clearing, justified by the run-loop guard
  `while 1 and not self.__stop` becoming false once the flag is set.
-/

/-- Indexing into a character list (self-contained `get?`). -/
def getAt : List Char → Nat → Option Char
  | [], _ => none
  | c :: _, 0 => some c
  | _ :: r, n + 1 => getAt r n

/-- Boolean "p is a leading segment of s" check (used to count occurrences). -/
def leadsWith : List Char → List Char → Bool
  | [], _ => true
  | _ :: _, [] => false
  | a :: p, b :: s => a == b && leadsWith p s

/-- Number of (possibly overlapping) occurrences of `p` in `s`,
one per starting position. -/
def countOcc (p : List Char) : List Char → Nat
  | [] => 0
  | c :: rest => (if leadsWith p (c :: rest) then 1 else 0) + countOcc p rest

/-- Computable check that every suffix of `A` (as a start position inside a
longer list) exhibits the character `a` somewhere within `A` itself; used to
rule out pattern occurrences that begin inside `A`. -/
def markerCheck (a : Char) (A : List Char) : Bool :=
  (List.range A.length).all fun k =>
    (List.range (A.length - k)).any fun j => getAt (A.drop k) j == some a

/-- Python `str.replace("\n", "\r\n")` (single-character pattern, so the
left-to-right non-overlapping scan is a per-character map). -/
def replaceLF : List Char → List Char
  | [] => []
  | c :: rest => if c = '\n' then '\r' :: '\n' :: replaceLF rest else c :: replaceLF rest

/-- UTF-8 encoding of one code point (as used by `bytes(s, "utf-8")` /
`str.encode("utf-8")`). -/
def utf8Char (c : Char) : List Nat :=
  let v := c.toNat
  if v < 128 then [v]
  else if v < 2048 then [192 + v / 64, 128 + v % 64]
  else if v < 65536 then [224 + v / 4096, 128 + v / 64 % 64, 128 + v % 64]
  else [240 + v / 262144, 128 + v / 4096 % 64, 128 + v / 64 % 64, 128 + v % 64]

/-- UTF-8 encoding of a string. -/
def utf8 (s : List Char) : List Nat := (s.map utf8Char).flatten

/-- Helper for `noBareLF`: scans a byte list remembering the previous byte;
every 0x0A must be preceded by 0x0D. -/
def noBareLFFrom : Nat → List Nat → Bool
  | _, [] => true
  | prev, b :: rest => ((b != 10) || (prev == 13)) && noBareLFFrom b rest

/-- "The byte sequence contains no bare `\n`": every 0x0A byte is immediately
preceded by a 0x0D byte (a leading 0x0A counts as bare). -/
def noBareLF (l : List Nat) : Bool := noBareLFFrom 0 l

/-- Last element of a byte list, with a default for the empty list. -/
def lastD : Nat → List Nat → Nat
  | d, [] => d
  | _, b :: rest => lastD b rest

/-! ### MD5 (RFC 1321), as used by `uuid.uuid3` -/

/-- 32-bit left rotation (arguments below 2^32). -/
def rotl32 (x n : Nat) : Nat := (((x <<< n) % 4294967296) ||| (x >>> (32 - n)))

/-- The 64 MD5 sine-derived constants. -/
def md5K : List Nat :=
  [0xd76aa478, 0xe8c7b756, 0x242070db, 0xc1bdceee,
   0xf57c0faf, 0x4787c62a, 0xa8304613, 0xfd469501,
   0x698098d8, 0x8b44f7af, 0xffff5bb1, 0x895cd7be,
   0x6b901122, 0xfd987193, 0xa679438e, 0x49b40821,
   0xf61e2562, 0xc040b340, 0x265e5a51, 0xe9b6c7aa,
   0xd62f105d, 0x02441453, 0xd8a1e681, 0xe7d3fbc8,
   0x21e1cde6, 0xc33707d6, 0xf4d50d87, 0x455a14ed,
   0xa9e3e905, 0xfcefa3f8, 0x676f02d9, 0x8d2a4c8a,
   0xfffa3942, 0x8771f681, 0x6d9d6122, 0xfde5380c,
   0xa4beea44, 0x4bdecfa9, 0xf6bb4b60, 0xbebfbc70,
   0x289b7ec6, 0xeaa127fa, 0xd4ef3085, 0x04881d05,
   0xd9d4d039, 0xe6db99e5, 0x1fa27cf8, 0xc4ac5665,
   0xf4292244, 0x432aff97, 0xab9423a7, 0xfc93a039,
   0x655b59c3, 0x8f0ccc92, 0xffeff47d, 0x85845dd1,
   0x6fa87e4f, 0xfe2ce6e0, 0xa3014314, 0x4e0811a1,
   0xf7537e82, 0xbd3af235, 0x2ad7d2bb, 0xeb86d391]

/-- The 64 MD5 per-step rotation amounts. -/
def md5S : List Nat :=
  [7, 12, 17, 22, 7, 12, 17, 22, 7, 12, 17, 22, 7, 12, 17, 22,
   5, 9, 14, 20, 5, 9, 14, 20, 5, 9, 14, 20, 5, 9, 14, 20,
   4, 11, 16, 23, 4, 11, 16, 23, 4, 11, 16, 23, 4, 11, 16, 23,
   6, 10, 15, 21, 6, 10, 15, 21, 6, 10, 15, 21, 6, 10, 15, 21]

/-- The MD5 round function for global step `i`. -/
def md5F (i b c d : Nat) : Nat :=
  if i < 16 then (b &&& c) ||| ((b ^^^ 4294967295) &&& d)
  else if i < 32 then (d &&& b) ||| ((d ^^^ 4294967295) &&& c)
  else if i < 48 then b ^^^ c ^^^ d
  else c ^^^ (b ||| (d ^^^ 4294967295))

/-- The MD5 message-word index for global step `i`. -/
def md5G (i : Nat) : Nat :=
  if i < 16 then i
  else if i < 32 then (5 * i + 1) % 16
  else if i < 48 then (3 * i + 5) % 16
  else (7 * i) % 16

/-- One 64-step MD5 block transformation applied to state `st` with the
16 message words `M`. -/
def md5Block (st : Nat × Nat × Nat × Nat) (M : List Nat) : Nat × Nat × Nat × Nat :=
  let r := (List.range 64).foldl
    (fun (abcd : Nat × Nat × Nat × Nat) (i : Nat) =>
      let a := abcd.1
      let b := abcd.2.1
      let c := abcd.2.2.1
      let d := abcd.2.2.2
      let tmp := (a + md5F i b c d + md5K.getD i 0 + M.getD (md5G i) 0) % 4294967296
      (d, (b + rotl32 tmp (md5S.getD i 0)) % 4294967296, b, c))
    st
  ((st.1 + r.1) % 4294967296, (st.2.1 + r.2.1) % 4294967296,
   (st.2.2.1 + r.2.2.1) % 4294967296, (st.2.2.2 + r.2.2.2) % 4294967296)

/-- 16 little-endian 32-bit words of a 64-byte block. -/
def toWords (block : List Nat) : List Nat :=
  (List.range 16).map fun j =>
    block.getD (4 * j) 0 + 256 * block.getD (4 * j + 1) 0 +
      65536 * block.getD (4 * j + 2) 0 + 16777216 * block.getD (4 * j + 3) 0

/-- Split into 64-byte chunks (fuelled recursion; the fuel is the length). -/
def chunks64 : Nat → List Nat → List (List Nat)
  | 0, _ => []
  | _, [] => []
  | n + 1, l => l.take 64 :: chunks64 n (l.drop 64)

/-- MD5 padding: 0x80, zeros to 56 mod 64, 8-byte little-endian bit length. -/
def md5Pad (msg : List Nat) : List Nat :=
  msg ++ 128 :: List.replicate ((119 - msg.length % 64) % 64) 0
      ++ (List.range 8).map (fun i => (((8 * msg.length) % 18446744073709551616) >>> (8 * i)) % 256)

/-- Four little-endian bytes of a 32-bit word. -/
def le32 (x : Nat) : List Nat := [x % 256, (x >>> 8) % 256, (x >>> 16) % 256, (x >>> 24) % 256]

/-- The 16-byte MD5 digest of a byte string. -/
def md5 (msg : List Nat) : List Nat :=
  let padded := md5Pad msg
  let st := (chunks64 padded.length padded).foldl
    (fun st ch => md5Block st (toWords ch)) (0x67452301, 0xefcdab89, 0x98badcfe, 0x10325476)
  le32 st.1 ++ le32 st.2.1 ++ le32 st.2.2.1 ++ le32 st.2.2.2

/-! ### uuid3 over the DNS namespace -/

/-- The 16 bytes of `uuid.NAMESPACE_DNS` (6ba7b810-9dad-11d1-80b4-00c04fd430c8). -/
def nsDNSBytes : List Nat :=
  [0x6b, 0xa7, 0xb8, 0x10, 0x9d, 0xad, 0x11, 0xd1,
   0x80, 0xb4, 0x00, 0xc0, 0x4f, 0xd4, 0x30, 0xc8]

/-- Force the version (3) and variant (10xx) bits of a 16-byte digest,
as the `uuid.UUID(bytes=..., version=3)` constructor does. -/
def uuid3bytes (digest : List Nat) : List Nat :=
  (digest.set 6 (((digest.getD 6 0) &&& 15) ||| 48)).set 8 (((digest.getD 8 0) &&& 63) ||| 128)

/-- The sixteen lowercase hex digits. -/
def hexAlphabet : List Char := "0123456789abcdef".data

/-- The characters that can appear in a canonical UUID string. -/
def uuidAlphabet : List Char := "0123456789abcdef-".data

/-- Lowercase hex digit of `n % 16`. -/
def hexDigit (n : Nat) : Char := hexAlphabet.getD (n % 16) '0'

/-- Two lowercase hex digits of a byte. -/
def byteHex (b : Nat) : List Char := [hexDigit (b / 16), hexDigit b]

/-- Canonical 8-4-4-4-12 string form of a 16-byte UUID (what `str(uuid)` yields). -/
def uuidStr (bytes : List Nat) : List Char :=
  let h := (bytes.map byteHex).flatten
  h.take 8 ++ '-' :: ((h.drop 8).take 4 ++ '-' ::
    ((h.drop 12).take 4 ++ '-' :: ((h.drop 16).take 4 ++ '-' :: h.drop 20)))

/-- `str(uuid.uuid3(uuid.NAMESPACE_DNS, myhostname + host))` — the stable
identifier computed in `SSDP.__init__` (source line 45). -/
def uuidOf (myhostname host : List Char) : List Char :=
  uuidStr (uuid3bytes (md5 (nsDNSBytes ++ utf8 (myhostname ++ host))))

/-! ### The payload texts of `SSDP.__init__` (source lines 50-82) -/

/-- Literal prefix of the broadcast f-string up to `LOCATION: ` (LF endings,
exactly as in the source before the CRLF replace). -/
def ssdpB1 : List Char :=
  "NOTIFY * HTTP/1.1\nHOST: 239.255.255.250:1900\nCACHE-CONTROL: max-age=60\nLOCATION: ".data

/-- Literal segment of the broadcast f-string between `{self.__url}` and
`{self.__uuid}`. -/
def ssdpB2 : List Char :=
  "/description.xml\nSERVER: SABnzbd\nNT: upnp:rootdevice\nUSN: uuid:".data

/-- Literal suffix of the broadcast f-string after `{self.__uuid}` (ends with
the blank line). -/
def ssdpB3 : List Char :=
  "::upnp:rootdevice\nNTS: ssdp:alive\nOPT: \"http://schemas.upnp.org/upnp/1/0/\"; ns=01\n\n".data

/-- The interpolated broadcast f-string (source lines 50-60), before the
`replace("\n", "\r\n")` and the UTF-8 encoding. -/
def ssdpBroadcastStr (url u : List Char) : List Char :=
  ssdpB1 ++ (url ++ (ssdpB2 ++ (u ++ ssdpB3)))

/-- XML literal up to (not including) `<URLBase>`. -/
def xmlPre : List Char :=
  "<?xml version=\"1.0\" encoding=\"UTF-8\" ?>\n<root xmlns=\"urn:schemas-upnp-org:device-1-0\">\n<specVersion>\n<major>1</major>\n<minor>0</minor>\n</specVersion>\n".data

/-- XML literal `<URLBase>`. -/
def xmlUrlOpen : List Char := "<URLBase>".data

/-- XML literal `</URLBase>`. -/
def xmlUrlClose : List Char := "</URLBase>".data

/-- XML literal between `</URLBase>` and `<friendlyName>`. -/
def xmlMid1 : List Char :=
  "\n<device>\n<deviceType>urn:schemas-upnp-org:device:Basic:1</deviceType>\n".data

/-- XML literal `<friendlyName>SABnzbd (`. -/
def xmlFNOpen : List Char := "<friendlyName>SABnzbd (".data

/-- XML literal `)</friendlyName>`. -/
def xmlFNClose : List Char := ")</friendlyName>".data

/-- XML literal between `</friendlyName>` and `<UDN>`. -/
def xmlMid2 : List Char :=
  "\n<manufacturer>SABnzbd Team</manufacturer>\n<manufacturerURL>http://www.sabnzbd.org</manufacturerURL>\n<modelDescription>SABnzbd downloader</modelDescription>\n<modelURL>http://www.sabnzbd.org</modelURL>\n".data

/-- XML literal `<UDN>uuid:`. -/
def xmlUDNOpen : List Char := "<UDN>uuid:".data

/-- XML literal `</UDN>`. -/
def xmlUDNClose : List Char := "</UDN>".data

/-- XML literal suffix after `</UDN>` through `</root>`. -/
def xmlPost : List Char :=
  "\n<presentationURL>sabnzbd</presentationURL>\n</device>\n</root>".data

/-- The interpolated descriptor-document f-string (source lines 65-82).
The concatenation of the literal segments is exactly the source literal. -/
def myxmlStr (url myhostname u : List Char) : List Char :=
  xmlPre ++ (xmlUrlOpen ++ (url ++ (xmlUrlClose ++ (xmlMid1 ++ (xmlFNOpen ++
    (myhostname ++ (xmlFNClose ++ (xmlMid2 ++ (xmlUDNOpen ++
      (u ++ (xmlUDNClose ++ xmlPost)))))))))))

/-! ### The `SSDP` class and the module-level wrappers -/

/-- The fields a constructed `SSDP` object holds (source lines 38-85). -/
structure SSDP where
  __host : List Char
  __server_name : List Char
  __url : List Char
  __description : List Char
  __myhostname : List Char
  __uuid : List Char
  __mySSDPbroadcast : List Nat
  __myxml : List Char
  __stop : Bool

/-- `SSDP.__init__(host, server_name, url, description)`; `myhostname` is the
ambient result of `socket.gethostname()` (source line 43). -/
def SSDP.init (host server_name url description myhostname : List Char) : SSDP :=
  let u := uuidOf myhostname host
  { __host := host
    __server_name := server_name
    __url := url
    __description := description
    __myhostname := myhostname
    __uuid := u
    __mySSDPbroadcast := utf8 (replaceLF (ssdpBroadcastStr url u))
    __myxml := myxmlStr url myhostname u
    __stop := false }

/-- `SSDP.stop` (source lines 87-89): sets the flag; the log call has no
effect on the state. -/
def SSDP.stop (s : SSDP) : SSDP := { s with __stop := true }

/-- The run-loop guard `while 1 and not self.__stop` (source line 100). -/
def SSDP.runGuard (s : SSDP) : Bool := !s.__stop

/-- `SSDP.serve_xml` (source lines 111-118): `None` when stopped, else the
descriptor document.  `none` models Python `None`. -/
def SSDP.serve_xml (s : SSDP) : Option (List Char) :=
  if s.__stop then none else some s.__myxml

/-- Module-level state: the list of announcers created so far (most recent
first, i.e. the head is the tracked `__SSDP`), each paired with its
thread-aliveness bit (`Thread.is_alive`). -/
structure SSDPModuleState where
  history : List (SSDP × Bool)

/-- The state at process start: `__SSDP: Optional[SSDP] = None` (source line 122). -/
def initialModuleState : SSDPModuleState := ⟨[]⟩

/-- `start_ssdp` (source lines 126-129): construct, start the thread, replace
the tracked reference.  The previously tracked instance is left untouched. -/
def start_ssdp (host server_name url description myhostname : List Char)
    (g : SSDPModuleState) : SSDPModuleState :=
  ⟨(SSDP.init host server_name url description myhostname, true) :: g.history⟩

/-- `stop_ssdp` (source lines 132-135): if a tracked instance exists and its
thread is alive, set its flag and join.  The join is modelled as the
aliveness bit clearing (the run-loop guard is false once the flag is set,
so the thread exits and `join()` returns). -/
def stop_ssdp (g : SSDPModuleState) : SSDPModuleState :=
  match g.history with
  | (s, true) :: rest => ⟨(SSDP.stop s, false) :: rest⟩
  | _ => g

/-- `server_ssdp_xml` (source lines 138-142): forwards `serve_xml()` when the
tracked thread is alive, else returns the empty string (`some []`). -/
def server_ssdp_xml (g : SSDPModuleState) : Option (List Char) :=
  match g.history with
  | (s, true) :: _ => s.serve_xml
  | _ => some []

/-- The transient point inside `stop_ssdp` after `__SSDP.stop()` has returned
and before `join()` has completed: the flag is set but the thread may still
be alive. -/
def stopNoJoin (g : SSDPModuleState) : SSDPModuleState :=
  match g.history with
  | (s, alive) :: rest => ⟨(SSDP.stop s, alive) :: rest⟩
  | _ => g

/-! ### Spec-side definitions (for the refinement claims)

These two follow the words of the specification (section 6, "Wire protocol"),
to be compared with what the code builds. -/

/-- The `USN` field of the announcement as the spec words it:
`USN: uuid:<id>::upnp:rootdevice`. -/
def usnField (u : List Char) : List Char :=
  "USN: uuid:".data ++ (u ++ "::upnp:rootdevice".data)

/-- Spec block, part before `<url>`. -/
def specPart1 : List Char :=
  "NOTIFY * HTTP/1.1\r\nHOST: 239.255.255.250:1900\r\nCACHE-CONTROL: max-age=60\r\nLOCATION: ".data

/-- Spec block, part between `<url>/description.xml` and the `USN` field. -/
def specPart2 : List Char :=
  "/description.xml\r\nSERVER: SABnzbd\r\nNT: upnp:rootdevice\r\n".data

/-- Spec block, part after the `USN` field (ends with the blank line). -/
def specPart3 : List Char :=
  "\r\nNTS: ssdp:alive\r\nOPT: \"http://schemas.upnp.org/upnp/1/0/\"; ns=01\r\n\r\n".data

/-- The CRLF-terminated header block exactly as the specification describes
the announcement payload (before UTF-8 encoding). -/
def specAnnouncementBlock (url u : List Char) : List Char :=
  specPart1 ++ (url ++ (specPart2 ++ (usnField u ++ specPart3)))

/-! Lemmas about the occurrence counter. -/

theorem leadsWith_exists {p s : List Char} (h : leadsWith p s = true) :
    ∃ r, p ++ r = s := by
  induction p generalizing s with
  | nil => exact ⟨s, rfl⟩
  | cons a p ih =>
    cases s with
    | nil => simp [leadsWith] at h
    | cons b s =>
      simp only [leadsWith, Bool.and_eq_true, beq_iff_eq] at h
      obtain ⟨r, hr⟩ := ih h.2
      exact ⟨r, by simp [h.1, hr]⟩

theorem leadsWith_of_append (p r : List Char) : leadsWith p (p ++ r) = true := by
  induction p with
  | nil => rfl
  | cons a p ih => simp [leadsWith, ih]

theorem leadsWith_length {p s : List Char} (h : leadsWith p s = true) :
    p.length ≤ s.length := by
  obtain ⟨r, hr⟩ := leadsWith_exists h
  rw [← hr, List.length_append]
  omega

theorem leadsWith_getAt {p s : List Char} (h : leadsWith p s = true) :
    ∀ {j : Nat}, j < p.length → getAt s j = getAt p j := by
  induction p generalizing s with
  | nil => intro j hj; simp at hj
  | cons a p ih =>
    cases s with
    | nil => simp [leadsWith] at h
    | cons b s =>
      simp only [leadsWith, Bool.and_eq_true, beq_iff_eq] at h
      intro j hj
      cases j with
      | zero => simp [getAt, h.1]
      | succ j =>
        show getAt s j = getAt p j
        exact ih h.2 (by simpa using hj)

theorem getAt_mem {l : List Char} : ∀ {j : Nat} {a : Char}, getAt l j = some a → a ∈ l := by
  induction l with
  | nil => intro j a h; simp [getAt] at h
  | cons c l ih =>
    intro j a h
    cases j with
    | zero => simp [getAt] at h; simp [h]
    | succ j => exact List.mem_cons_of_mem _ (ih h)

theorem getAt_append_left {x : List Char} (t : List Char) :
    ∀ {j : Nat}, j < x.length → getAt (x ++ t) j = getAt x j := by
  induction x with
  | nil => intro j hj; simp at hj
  | cons c x ih =>
    intro j hj
    cases j with
    | zero => rfl
    | succ j => exact ih (by simpa using hj)

theorem getAt_append_len (x B : List Char) : getAt (x ++ B) x.length = getAt B 0 := by
  induction x with
  | nil => rfl
  | cons c x ih => exact ih

theorem leadsWith_eq_false_of_marker {p l : List Char} {a : Char} {j : Nat}
    (ha : a ∉ p) (hj : j < p.length) (hl : getAt l j = some a) :
    leadsWith p l = false := by
  cases hb : leadsWith p l with
  | false => rfl
  | true =>
    exfalso
    have h1 : getAt l j = getAt p j := leadsWith_getAt hb hj
    exact ha (getAt_mem (h1 ▸ hl))

theorem leadsWith_append_of_le {p : List Char} : ∀ {s : List Char} (t : List Char),
    p.length ≤ s.length → leadsWith p (s ++ t) = leadsWith p s := by
  induction p with
  | nil => intro s t _; rfl
  | cons a p ih =>
    intro s t h
    cases s with
    | nil => simp at h
    | cons b s =>
      show (a == b && leadsWith p (s ++ t)) = (a == b && leadsWith p s)
      rw [ih t (by simpa using h)]

theorem countOcc_cons (p : List Char) (c : Char) (rest : List Char) :
    countOcc p (c :: rest) = (if leadsWith p (c :: rest) then 1 else 0) + countOcc p rest :=
  rfl

theorem countOcc_short {p : List Char} : ∀ {s : List Char}, s.length < p.length →
    countOcc p s = 0 := by
  intro s
  induction s with
  | nil => intro _; rfl
  | cons c rest ih =>
    intro h
    have hlw : leadsWith p (c :: rest) = false := by
      cases hb : leadsWith p (c :: rest) with
      | false => rfl
      | true => exact absurd (leadsWith_length hb) (by omega)
    rw [countOcc_cons, hlw]
    have h2 : countOcc p rest = 0 := ih (by simp at h; omega)
    simp [h2]

theorem countOcc_append_skip {p : List Char} {a : Char} (hp : getAt p 0 = some a)
    {s1 : List Char} (t : List Char) (hs : a ∉ s1) :
    countOcc p (s1 ++ t) = countOcc p t := by
  obtain ⟨p', rfl⟩ : ∃ p', p = a :: p' := by
    cases p with
    | nil => simp [getAt] at hp
    | cons q p' =>
      have hq : q = a := by simpa [getAt] using hp
      exact ⟨p', by rw [hq]⟩
  induction s1 with
  | nil => rfl
  | cons c s1 ih =>
    have hac : (a == c) = false := by
      simp only [beq_eq_false_iff_ne, ne_eq]
      intro h
      exact hs (by simp [h])
    have hlw : leadsWith (a :: p') (c :: (s1 ++ t)) = false := by
      show (a == c && leadsWith p' (s1 ++ t)) = false
      rw [hac, Bool.false_and]
    show countOcc (a :: p') (c :: (s1 ++ t)) = countOcc (a :: p') t
    rw [countOcc_cons, hlw]
    have h2 := ih (fun h => hs (List.mem_cons_of_mem _ h))
    simp [h2]

theorem countOcc_append_block {p : List Char} {a : Char} (hp : getAt p 0 = some a)
    (L t : List Char) (h : a ∉ L.drop (L.length + 1 - p.length)) :
    countOcc p (L ++ t) = countOcc p L + countOcc p t := by
  obtain ⟨p', rfl⟩ : ∃ p', p = a :: p' := by
    cases p with
    | nil => simp [getAt] at hp
    | cons q p' =>
      have hq : q = a := by simpa [getAt] using hp
      exact ⟨p', by rw [hq]⟩
  induction L with
  | nil => simp [countOcc]
  | cons c L ih =>
    by_cases hlen : (a :: p').length ≤ (c :: L).length
    · have h1 : leadsWith (a :: p') ((c :: L) ++ t) = leadsWith (a :: p') (c :: L) :=
        leadsWith_append_of_le t hlen
      have hd : a ∉ L.drop (L.length + 1 - (a :: p').length) := by
        intro hmem
        apply h
        have he : (c :: L).length + 1 - (a :: p').length
            = (L.length + 1 - (a :: p').length) + 1 := by
          simp at hlen ⊢; omega
        rw [he, List.drop_succ_cons]
        exact hmem
      have h2 := ih hd
      show countOcc (a :: p') (c :: (L ++ t))
          = countOcc (a :: p') (c :: L) + countOcc (a :: p') t
      rw [countOcc_cons, countOcc_cons _ c L]
      have h1' : leadsWith (a :: p') (c :: (L ++ t)) = leadsWith (a :: p') (c :: L) := h1
      rw [h1', h2]
      omega
    · push_neg at hlen
      have h0 : (c :: L).length + 1 - (a :: p').length = 0 := by simp at hlen ⊢; omega
      have hmem : a ∉ c :: L := by
        rw [h0] at h
        simpa using h
      have hac : (a == c) = false := by
        simp only [beq_eq_false_iff_ne, ne_eq]
        intro hcc
        exact hmem (by simp [hcc])
      have hlw1 : leadsWith (a :: p') (c :: (L ++ t)) = false := by
        show (a == c && leadsWith p' (L ++ t)) = false
        rw [hac, Bool.false_and]
      have hlw2 : leadsWith (a :: p') (c :: L) = false := by
        show (a == c && leadsWith p' L) = false
        rw [hac, Bool.false_and]
      have hd : a ∉ L.drop (L.length + 1 - (a :: p').length) := by
        have h0' : L.length + 1 - (a :: p').length = 0 := by simp at hlen ⊢; omega
        rw [h0']
        simp only [List.drop_zero]
        exact fun hm => hmem (List.mem_cons_of_mem _ hm)
      have h2 := ih hd
      show countOcc (a :: p') (c :: (L ++ t))
          = countOcc (a :: p') (c :: L) + countOcc (a :: p') t
      rw [countOcc_cons, countOcc_cons _ c L, hlw1, hlw2, h2]
      simp

theorem countOcc_append_marker {p : List Char} {a : Char} (ha : a ∉ p) :
    ∀ (A : List Char) (t : List Char), A.length ≤ p.length → markerCheck a A = true →
    countOcc p (A ++ t) = countOcc p t := by
  intro A
  induction A with
  | nil => intro t _ _; rfl
  | cons c A ih =>
    intro t hlen h
    simp only [markerCheck, List.all_eq_true, List.any_eq_true, List.mem_range,
      beq_iff_eq] at h
    obtain ⟨j, hj, hja⟩ := h 0 (by simp)
    simp only [List.drop_zero] at hja
    have hj' : j < (c :: A).length := by simpa using hj
    have hlw : leadsWith p ((c :: A) ++ t) = false := by
      apply leadsWith_eq_false_of_marker ha (lt_of_lt_of_le hj' hlen)
      rw [getAt_append_left t hj']
      exact hja
    have hm : markerCheck a A = true := by
      simp only [markerCheck, List.all_eq_true, List.any_eq_true, List.mem_range,
        beq_iff_eq]
      intro k hk
      obtain ⟨j', hj'', hja'⟩ := h (k + 1) (by simpa using Nat.succ_lt_succ hk)
      refine ⟨j', by simpa using hj'', ?_⟩
      simpa [List.drop_succ_cons] using hja'
    have hlw' : leadsWith p (c :: (A ++ t)) = false := hlw
    show countOcc p (c :: (A ++ t)) = countOcc p t
    rw [countOcc_cons, hlw']
    have h2 := ih t (le_trans (by simp) hlen) hm
    simp [h2]

theorem countOcc_append_end {p : List Char} {a : Char} (ha : a ∉ p)
    {B : List Char} (hB : getAt B 0 = some a) (hB2 : B.length < p.length) :
    ∀ x : List Char, x.length < p.length → countOcc p (x ++ B) = 0 := by
  intro x
  induction x with
  | nil => intro _; simpa using countOcc_short hB2
  | cons c x ih =>
    intro hx
    have hlw : leadsWith p ((c :: x) ++ B) = false := by
      apply leadsWith_eq_false_of_marker ha hx
      rw [getAt_append_len (c :: x) B]
      exact hB
    have hlw' : leadsWith p (c :: (x ++ B)) = false := hlw
    show countOcc p (c :: (x ++ B)) = 0
    rw [countOcc_cons, hlw']
    have h2 := ih (by simp at hx ⊢; omega)
    simp [h2]

theorem countOcc_self_marker {p B : List Char} {a : Char} (ha : a ∉ p) (hp : p ≠ [])
    (hB : getAt B 0 = some a) (hB2 : B.length < p.length) :
    countOcc p (p ++ B) = 1 := by
  cases hpp : p with
  | nil => exact absurd hpp hp
  | cons c p' =>
    subst hpp
    have hlw : leadsWith (c :: p') ((c :: p') ++ B) = true := leadsWith_of_append _ _
    have hlw' : leadsWith (c :: p') (c :: (p' ++ B)) = true := hlw
    show countOcc (c :: p') (c :: (p' ++ B)) = 1
    rw [countOcc_cons, hlw']
    have h0 : countOcc (c :: p') (p' ++ B) = 0 :=
      countOcc_append_end ha hB hB2 p' (by simp)
    simp [h0]

/-! Lemmas about the characters and the length of the computed identifier. -/

theorem hexDigit_mem (n : Nat) : hexDigit n ∈ hexAlphabet := by
  have h : n % 16 < 16 := Nat.mod_lt _ (by norm_num)
  unfold hexDigit
  revert h
  generalize n % 16 = m
  intro h
  interval_cases m <;> decide

theorem byteHex_mem {c : Char} {b : Nat} (h : c ∈ byteHex b) : c ∈ hexAlphabet := by
  simp only [byteHex, List.mem_cons, List.not_mem_nil, or_false] at h
  rcases h with h | h <;> rw [h] <;> exact hexDigit_mem _

theorem uuidStr_chars {bytes : List Nat} {c : Char} (h : c ∈ uuidStr bytes) :
    c ∈ uuidAlphabet := by
  have hsub : ∀ y ∈ hexAlphabet, y ∈ uuidAlphabet := by decide
  have hhex : ∀ {x : Char}, x ∈ (bytes.map byteHex).flatten → x ∈ uuidAlphabet := by
    intro x hx
    rw [List.mem_flatten] at hx
    obtain ⟨l, hl, hxl⟩ := hx
    rw [List.mem_map] at hl
    obtain ⟨b, _, rfl⟩ := hl
    exact hsub _ (byteHex_mem hxl)
  have hdash : '-' ∈ uuidAlphabet := by decide
  unfold uuidStr at h
  simp only [List.mem_append, List.mem_cons] at h
  rcases h with h | h | h | h | h | h | h | h | h
  · exact hhex (List.take_subset _ _ h)
  · rw [h]; exact hdash
  · exact hhex (List.drop_subset _ _ (List.take_subset _ _ h))
  · rw [h]; exact hdash
  · exact hhex (List.drop_subset _ _ (List.take_subset _ _ h))
  · rw [h]; exact hdash
  · exact hhex (List.drop_subset _ _ (List.take_subset _ _ h))
  · rw [h]; exact hdash
  · exact hhex (List.drop_subset _ _ h)

theorem md5_length (msg : List Nat) : (md5 msg).length = 16 := by
  unfold md5
  simp [le32]

theorem uuid3bytes_length (d : List Nat) : (uuid3bytes d).length = d.length := by
  simp [uuid3bytes]

theorem flatten_byteHex_length (bytes : List Nat) :
    ((bytes.map byteHex).flatten).length = 2 * bytes.length := by
  induction bytes with
  | nil => rfl
  | cons b bs ih =>
    simp only [List.map_cons, List.flatten_cons, List.length_append, ih,
      List.length_cons, byteHex, List.length_nil]
    omega

theorem uuidStr_length {bytes : List Nat} (h : bytes.length = 16) :
    (uuidStr bytes).length = 36 := by
  unfold uuidStr
  have h2 : ((bytes.map byteHex).flatten).length = 32 := by
    rw [flatten_byteHex_length, h]
  simp [List.length_append, List.length_take, List.length_drop, h2]

theorem uuidOf_length (hn host : List Char) : (uuidOf hn host).length = 36 := by
  unfold uuidOf
  exact uuidStr_length (by rw [uuid3bytes_length, md5_length])

theorem uuidOf_chars {hn host : List Char} {c : Char} (h : c ∈ uuidOf hn host) :
    c ∈ uuidAlphabet :=
  uuidStr_chars h

theorem uuidOf_no_colon (hn host : List Char) : ':' ∉ uuidOf hn host :=
  fun h => absurd (uuidOf_chars h) (by decide)

theorem uuidOf_no_lt (hn host : List Char) : '<' ∉ uuidOf hn host :=
  fun h => absurd (uuidOf_chars h) (by decide)

theorem uuidOf_no_lf (hn host : List Char) : '\n' ∉ uuidOf hn host :=
  fun h => absurd (uuidOf_chars h) (by decide)

/-! Lemmas about the CRLF normalisation and the UTF-8 encoding. -/

theorem replaceLF_append (x y : List Char) :
    replaceLF (x ++ y) = replaceLF x ++ replaceLF y := by
  induction x with
  | nil => rfl
  | cons c x ih => by_cases hc : c = '\n' <;> simp [replaceLF, hc, ih]

theorem replaceLF_id {s : List Char} (h : '\n' ∉ s) : replaceLF s = s := by
  induction s with
  | nil => rfl
  | cons c s ih =>
    have hc : ¬ c = '\n' := fun e => h (by simp [e])
    have h2 := ih (fun m => h (List.mem_cons_of_mem _ m))
    simp [replaceLF, hc, h2]

theorem utf8_cons (c : Char) (s : List Char) : utf8 (c :: s) = utf8Char c ++ utf8 s := by
  simp [utf8]

theorem noBareLFFrom_append (x y : List Nat) :
    ∀ prev, noBareLFFrom prev (x ++ y)
      = (noBareLFFrom prev x && noBareLFFrom (lastD prev x) y) := by
  induction x with
  | nil => intro prev; simp [noBareLFFrom, lastD]
  | cons b x ih =>
    intro prev
    show ((b != 10 || prev == 13) && noBareLFFrom b (x ++ y)) = _
    rw [ih b]
    show _ = ((b != 10 || prev == 13) && noBareLFFrom b x && noBareLFFrom (lastD b x) y)
    rw [Bool.and_assoc]

theorem noBareLFFrom_no10 {l : List Nat} (h : 10 ∉ l) :
    ∀ prev, noBareLFFrom prev l = true := by
  induction l with
  | nil => intro _; rfl
  | cons b l ih =>
    intro prev
    have hb : (b != 10) = true := by
      simp only [bne_iff_ne, ne_eq]
      intro e
      exact h (by simp [e])
    have h2 := ih (fun m => h (List.mem_cons_of_mem _ m)) b
    show ((b != 10 || prev == 13) && noBareLFFrom b l) = true
    rw [hb, Bool.true_or, Bool.true_and, h2]

theorem utf8Char_no10 {c : Char} (h : c ≠ '\n') : 10 ∉ utf8Char c := by
  have hv : c.toNat ≠ 10 := by
    intro e
    apply h
    have := Char.ofNat_toNat c
    rw [e] at this
    exact this.symm
  unfold utf8Char
  by_cases h1 : c.toNat < 128
  · simp only [h1, if_true, List.mem_cons, List.not_mem_nil, or_false]
    omega
  · by_cases h2 : c.toNat < 2048
    · simp only [h1, h2, if_true, if_false, List.mem_cons, List.not_mem_nil, or_false]
      omega
    · by_cases h3 : c.toNat < 65536
      · simp only [h1, h2, h3, if_true, if_false, List.mem_cons, List.not_mem_nil, or_false]
        omega
      · simp only [h1, h2, h3, if_false, List.mem_cons, List.not_mem_nil, or_false]
        omega

theorem noBareLF_utf8_replaceLF (s : List Char) :
    ∀ prev, noBareLFFrom prev (utf8 (replaceLF s)) = true := by
  induction s with
  | nil => intro _; rfl
  | cons c s ih =>
    intro prev
    by_cases hc : c = '\n'
    · subst hc
      rw [show replaceLF ('\n' :: s) = '\r' :: '\n' :: replaceLF s from by
        simp [replaceLF]]
      rw [utf8_cons, utf8_cons]
      rw [show utf8Char '\r' = [13] from rfl, show utf8Char '\n' = [10] from rfl]
      show noBareLFFrom prev (13 :: 10 :: utf8 (replaceLF s)) = true
      show ((13 != 10 || prev == 13) && ((10 != 10 || 13 == 13)
        && noBareLFFrom 10 (utf8 (replaceLF s)))) = true
      rw [ih 10]
      simp
    · rw [show replaceLF (c :: s) = c :: replaceLF s from by simp [replaceLF, hc]]
      rw [utf8_cons, noBareLFFrom_append]
      rw [noBareLFFrom_no10 (utf8Char_no10 hc) prev, ih]
      rfl

/-! Occurrence counts in the two payloads. -/

theorem countOcc_usn {u : List Char} (ha : ':' ∉ u) (hlen : u.length = 36) :
    countOcc u (usnField u) = 1 := by
  unfold usnField
  rw [countOcc_append_marker ha _ _ (by rw [hlen]; decide) (by decide)]
  exact countOcc_self_marker ha
    (by intro h; rw [h] at hlen; simp at hlen)
    (by decide)
    (by rw [hlen]; decide)

set_option maxRecDepth 40000 in
theorem countOcc_udn {url hn u : List Char} (hu : '<' ∉ url) (hh : '<' ∉ hn)
    (hq : '<' ∉ u) : countOcc "<UDN>".data (myxmlStr url hn u) = 1 := by
  have hp : getAt "<UDN>".data 0 = some '<' := by decide
  unfold myxmlStr
  rw [countOcc_append_block hp xmlPre _ (by decide),
      countOcc_append_block hp xmlUrlOpen _ (by decide),
      countOcc_append_skip hp _ hu,
      countOcc_append_block hp xmlUrlClose _ (by decide),
      countOcc_append_block hp xmlMid1 _ (by decide),
      countOcc_append_block hp xmlFNOpen _ (by decide),
      countOcc_append_skip hp _ hh,
      countOcc_append_block hp xmlFNClose _ (by decide),
      countOcc_append_block hp xmlMid2 _ (by decide),
      countOcc_append_block hp xmlUDNOpen _ (by decide),
      countOcc_append_skip hp _ hq]
  decide

/-! The CRLF-normalised broadcast block equals the spec's block. -/

set_option maxRecDepth 40000 in
theorem replaceLF_broadcast {url u : List Char} (hu : '\n' ∉ url) (hq : '\n' ∉ u) :
    replaceLF (ssdpBroadcastStr url u) = specAnnouncementBlock url u := by
  unfold ssdpBroadcastStr specAnnouncementBlock
  rw [replaceLF_append, replaceLF_append, replaceLF_append, replaceLF_append]
  rw [replaceLF_id hu, replaceLF_id hq]
  rw [show replaceLF ssdpB1 = specPart1 from by decide]
  rw [show replaceLF ssdpB2 = specPart2 ++ "USN: uuid:".data from by decide]
  rw [show replaceLF ssdpB3 = "::upnp:rootdevice".data ++ specPart3 from by decide]
  simp [usnField, List.append_assoc]

theorem myxmlStr_ne_nil (url hn u : List Char) : myxmlStr url hn u ≠ [] := by
  unfold myxmlStr
  intro h
  rw [List.append_eq_nil] at h
  exact absurd h.1 (by decide)

/-! Helper equation: serving the document of a freshly constructed announcer. -/

theorem serve_xml_init (host sn url d hn : List Char) :
    SSDP.serve_xml (SSDP.init host sn url d hn)
      = some (myxmlStr url hn (uuidOf hn host)) := rfl

/-! The claims. -/

/-- C1 (amended): two constructions with identical host and identical resolved
hostname yield identical stable identifiers (whatever the other parameters);
more generally the identifier depends only on the concatenation
hostname ++ host, so any two inputs with equal concatenation collide. -/
theorem C1_theorem (host sn1 url1 d1 sn2 url2 d2 hn hn1 host1 hn2 host2 : List Char)
    (h : hn1 ++ host1 = hn2 ++ host2) :
    (SSDP.init host sn1 url1 d1 hn).__uuid = (SSDP.init host sn2 url2 d2 hn).__uuid
    ∧ uuidOf hn1 host1 = uuidOf hn2 host2 := by
  constructor
  · rfl
  · unfold uuidOf
    rw [h]

/-- C1 witness: the theorem applied at concrete inputs. -/
theorem C1_witness :
    ("x".data ++ "yz".data = "xy".data ++ "z".data)
    ∧ ((SSDP.init "h".data "a".data "u".data "d".data "n".data).__uuid
        = (SSDP.init "h".data "b".data "v".data "e".data "n".data).__uuid
      ∧ uuidOf "x".data "yz".data = uuidOf "xy".data "z".data) :=
  ⟨by decide, C1_theorem "h".data "a".data "u".data "d".data "b".data "v".data
    "e".data "n".data "x".data "yz".data "xy".data "z".data (by decide)⟩

set_option maxRecDepth 100000 in
/-- C1 counterexample: changing the hostname from "ab" to "a" and the host
from "c" to "bc" changes both inputs but leaves the identifier unchanged,
because only the concatenation hostname ++ host is hashed; so "for every
change to either the hostname or the host string, the resulting identifier
differs" is false as stated. -/
theorem C1_counterexample :
    ("ab".data, "c".data) ≠ ("a".data, "bc".data)
    ∧ uuidOf "ab".data "c".data = uuidOf "a".data "bc".data :=
  ⟨by decide, by decide⟩

/-- C2 (amended): serve_xml returns the immutable descriptor document exactly
when the run-state flag is false — which holds from construction on, hence in
particular before Start() — and returns the absent result after stop();
between construction/Start and stop every call returns the same non-empty
document. -/
theorem C2_theorem (host sn url d hn : List Char) :
    (SSDP.init host sn url d hn).__stop = false
    ∧ SSDP.serve_xml (SSDP.init host sn url d hn)
        = some ((SSDP.init host sn url d hn).__myxml)
    ∧ (SSDP.init host sn url d hn).__myxml ≠ []
    ∧ SSDP.serve_xml (SSDP.stop (SSDP.init host sn url d hn)) = none :=
  ⟨rfl, rfl, myxmlStr_ne_nil url hn (uuidOf hn host), rfl⟩

/-- C2 counterexample: a freshly constructed announcer (before any Start) has
its flag false and serve_xml already returns the full document — neither the
absent value nor an empty one — so "it returns empty before Start()" is false
as stated. -/
theorem C2_counterexample :
    (SSDP.init "h".data "s".data "u".data "d".data "n".data).__stop = false
    ∧ SSDP.serve_xml (SSDP.init "h".data "s".data "u".data "d".data "n".data) ≠ none
    ∧ SSDP.serve_xml (SSDP.init "h".data "s".data "u".data "d".data "n".data)
        ≠ some [] := by
  refine ⟨rfl, ?_, ?_⟩
  · rw [serve_xml_init]
    simp
  · rw [serve_xml_init]
    simp only [ne_eq, Option.some.injEq]
    exact myxmlStr_ne_nil "u".data "n".data (uuidOf "n".data "h".data)

set_option maxRecDepth 40000 in
/-- C3 (amended): provided the url contains no newline and neither the url nor
the resolved hostname contains the character `<` (so no markup can be
injected), the announcement bytes are exactly the UTF-8 encoding of the
CRLF-terminated header block the spec describes; the USN field occurs in that
block and contains the identifier exactly once; and the descriptor document
contains URLBase equal to url, the literal presentationURL `sabnzbd`, a
friendlyName embedding the hostname, and exactly one UDN element, which
equals `uuid:` plus the identifier. -/
theorem C3_theorem (host sn url d hn : List Char)
    (hu1 : '\n' ∉ url) (hu2 : '<' ∉ url) (hh : '<' ∉ hn) :
    (SSDP.init host sn url d hn).__mySSDPbroadcast
      = utf8 (specAnnouncementBlock url ((SSDP.init host sn url d hn).__uuid))
    ∧ usnField ((SSDP.init host sn url d hn).__uuid)
        <:+: specAnnouncementBlock url ((SSDP.init host sn url d hn).__uuid)
    ∧ countOcc ((SSDP.init host sn url d hn).__uuid)
        (usnField ((SSDP.init host sn url d hn).__uuid)) = 1
    ∧ (xmlUrlOpen ++ (url ++ xmlUrlClose)) <:+: (SSDP.init host sn url d hn).__myxml
    ∧ "<presentationURL>sabnzbd</presentationURL>".data
        <:+: (SSDP.init host sn url d hn).__myxml
    ∧ (xmlFNOpen ++ (hn ++ xmlFNClose)) <:+: (SSDP.init host sn url d hn).__myxml
    ∧ countOcc "<UDN>".data ((SSDP.init host sn url d hn).__myxml) = 1
    ∧ (xmlUDNOpen ++ ((SSDP.init host sn url d hn).__uuid ++ xmlUDNClose))
        <:+: (SSDP.init host sn url d hn).__myxml := by
  refine ⟨?_, ?_, ?_, ?_, ?_, ?_, ?_, ?_⟩
  · show utf8 (replaceLF (ssdpBroadcastStr url (uuidOf hn host)))
      = utf8 (specAnnouncementBlock url (uuidOf hn host))
    exact congrArg utf8 (replaceLF_broadcast hu1 (uuidOf_no_lf hn host))
  · show usnField (uuidOf hn host) <:+: specAnnouncementBlock url (uuidOf hn host)
    exact ⟨specPart1 ++ (url ++ specPart2), specPart3,
      by simp [specAnnouncementBlock, List.append_assoc]⟩
  · show countOcc (uuidOf hn host) (usnField (uuidOf hn host)) = 1
    exact countOcc_usn (uuidOf_no_colon hn host) (uuidOf_length hn host)
  · show (xmlUrlOpen ++ (url ++ xmlUrlClose)) <:+: myxmlStr url hn (uuidOf hn host)
    exact ⟨xmlPre, xmlMid1 ++ (xmlFNOpen ++ (hn ++ (xmlFNClose ++ (xmlMid2 ++
      (xmlUDNOpen ++ (uuidOf hn host ++ (xmlUDNClose ++ xmlPost))))))),
      by simp [myxmlStr, List.append_assoc]⟩
  · show "<presentationURL>sabnzbd</presentationURL>".data
      <:+: myxmlStr url hn (uuidOf hn host)
    have hsplit : xmlPost = '\n' ::
        ("<presentationURL>sabnzbd</presentationURL>".data
          ++ "\n</device>\n</root>".data) := by decide
    refine ⟨xmlPre ++ (xmlUrlOpen ++ (url ++ (xmlUrlClose ++ (xmlMid1 ++ (xmlFNOpen ++
      (hn ++ (xmlFNClose ++ (xmlMid2 ++ (xmlUDNOpen ++ (uuidOf hn host ++
      (xmlUDNClose ++ ['\n']))))))))))), "\n</device>\n</root>".data, ?_⟩
    rw [myxmlStr, hsplit]
    simp [List.append_assoc]
  · show (xmlFNOpen ++ (hn ++ xmlFNClose)) <:+: myxmlStr url hn (uuidOf hn host)
    exact ⟨xmlPre ++ (xmlUrlOpen ++ (url ++ (xmlUrlClose ++ xmlMid1))),
      xmlMid2 ++ (xmlUDNOpen ++ (uuidOf hn host ++ (xmlUDNClose ++ xmlPost))),
      by simp [myxmlStr, List.append_assoc]⟩
  · show countOcc "<UDN>".data (myxmlStr url hn (uuidOf hn host)) = 1
    exact countOcc_udn hu2 hh (uuidOf_no_lt hn host)
  · show (xmlUDNOpen ++ (uuidOf hn host ++ xmlUDNClose))
      <:+: myxmlStr url hn (uuidOf hn host)
    exact ⟨xmlPre ++ (xmlUrlOpen ++ (url ++ (xmlUrlClose ++ (xmlMid1 ++ (xmlFNOpen ++
      (hn ++ (xmlFNClose ++ xmlMid2))))))), xmlPost,
      by simp [myxmlStr, List.append_assoc]⟩

/-- C3 witness: the theorem applied at a concrete construction. -/
theorem C3_witness :
    ('\n' ∉ "http://u".data ∧ '<' ∉ "http://u".data ∧ '<' ∉ "n".data)
    ∧ ((SSDP.init "h".data "s".data "http://u".data "d".data "n".data).__mySSDPbroadcast
        = utf8 (specAnnouncementBlock "http://u".data
            ((SSDP.init "h".data "s".data "http://u".data "d".data "n".data).__uuid))
      ∧ usnField ((SSDP.init "h".data "s".data "http://u".data "d".data "n".data).__uuid)
          <:+: specAnnouncementBlock "http://u".data
            ((SSDP.init "h".data "s".data "http://u".data "d".data "n".data).__uuid)
      ∧ countOcc ((SSDP.init "h".data "s".data "http://u".data "d".data "n".data).__uuid)
          (usnField ((SSDP.init "h".data "s".data "http://u".data "d".data
            "n".data).__uuid)) = 1
      ∧ (xmlUrlOpen ++ ("http://u".data ++ xmlUrlClose))
          <:+: (SSDP.init "h".data "s".data "http://u".data "d".data "n".data).__myxml
      ∧ "<presentationURL>sabnzbd</presentationURL>".data
          <:+: (SSDP.init "h".data "s".data "http://u".data "d".data "n".data).__myxml
      ∧ (xmlFNOpen ++ ("n".data ++ xmlFNClose))
          <:+: (SSDP.init "h".data "s".data "http://u".data "d".data "n".data).__myxml
      ∧ countOcc "<UDN>".data
          ((SSDP.init "h".data "s".data "http://u".data "d".data "n".data).__myxml) = 1
      ∧ (xmlUDNOpen ++
          ((SSDP.init "h".data "s".data "http://u".data "d".data "n".data).__uuid
            ++ xmlUDNClose))
          <:+: (SSDP.init "h".data "s".data "http://u".data "d".data "n".data).__myxml) :=
  ⟨⟨by decide, by decide, by decide⟩,
    C3_theorem "h".data "s".data "http://u".data "d".data "n".data
      (by decide) (by decide) (by decide)⟩

set_option maxRecDepth 100000 in
/-- C3 counterexample: the claim quantifies over every construction, but (a) a
url containing a newline is CRLF-normalised inside the payload, so the bytes
differ from the UTF-8 encoding of the spec's block built from that url; (b) a
url that injects the text `<UDN>uuid:<the computed identifier></UDN>` (the
identifier for hostname "n" and host "h" is
c33d0a73-caf6-3b09-8708-3535fd0dcf1e) yields a document with two UDN
elements equal to `uuid:` plus the identifier; (c) a resolved hostname
containing `<UDN>x</UDN>` likewise yields two UDN elements. -/
theorem C3_counterexample :
    (SSDP.init "h".data "s".data "a\nb".data "d".data "n".data).__mySSDPbroadcast
      ≠ utf8 (specAnnouncementBlock "a\nb".data
          ((SSDP.init "h".data "s".data "a\nb".data "d".data "n".data).__uuid))
    ∧ countOcc "<UDN>".data
        ((SSDP.init "h".data "s".data
          "<UDN>uuid:c33d0a73-caf6-3b09-8708-3535fd0dcf1e</UDN>".data
          "d".data "n".data).__myxml) ≠ 1
    ∧ countOcc "<UDN>".data
        ((SSDP.init "h".data "s".data "u".data "d".data
          "<UDN>x</UDN>".data).__myxml) ≠ 1 :=
  ⟨by decide, by decide, by decide⟩

/-- C4: for every construction the announcement byte sequence contains no bare
0x0A byte — every line feed is immediately preceded by 0x0D. -/
theorem C4_theorem (host sn url d hn : List Char) :
    noBareLF ((SSDP.init host sn url d hn).__mySSDPbroadcast) = true :=
  noBareLF_utf8_replaceLF (ssdpBroadcastStr url (uuidOf hn host)) 0

/-- C5: on a module state whose tracked instance is alive, stop_ssdp sets the
run-state flag, after which the run-loop guard is false (so the thread exits
and the join returns, modelled by the aliveness bit clearing), and it returns
the joined state; calling stop_ssdp again on the already-stopped state is a
no-op. -/
theorem C5_theorem (s : SSDP) (rest : List (SSDP × Bool)) :
    stop_ssdp ⟨(s, true) :: rest⟩ = ⟨(SSDP.stop s, false) :: rest⟩
    ∧ (SSDP.stop s).__stop = true
    ∧ SSDP.runGuard (SSDP.stop s) = false
    ∧ stop_ssdp (stop_ssdp ⟨(s, true) :: rest⟩) = stop_ssdp ⟨(s, true) :: rest⟩ :=
  ⟨rfl, rfl, rfl, rfl⟩

/-- C6: the run-state flag is false at construction; the stop operation sets
it to true and changes no other field; stopping twice equals stopping once
(the transition is one-way and never reset). -/
theorem C6_theorem (host sn url d hn : List Char) (s : SSDP) :
    (SSDP.init host sn url d hn).__stop = false
    ∧ (SSDP.stop s).__stop = true
    ∧ (SSDP.stop s).__host = s.__host
    ∧ (SSDP.stop s).__server_name = s.__server_name
    ∧ (SSDP.stop s).__url = s.__url
    ∧ (SSDP.stop s).__description = s.__description
    ∧ (SSDP.stop s).__myhostname = s.__myhostname
    ∧ (SSDP.stop s).__uuid = s.__uuid
    ∧ (SSDP.stop s).__mySSDPbroadcast = s.__mySSDPbroadcast
    ∧ (SSDP.stop s).__myxml = s.__myxml
    ∧ SSDP.stop (SSDP.stop s) = SSDP.stop s :=
  ⟨rfl, rfl, rfl, rfl, rfl, rfl, rfl, rfl, rfl, rfl, rfl⟩

/-- C7: before any instance was started the module state is the initial one;
there server_ssdp_xml returns the empty string and stop_ssdp is a no-op (both
are total functions, so neither raises). -/
theorem C7_theorem :
    server_ssdp_xml initialModuleState = some []
    ∧ stop_ssdp initialModuleState = initialModuleState :=
  ⟨rfl, rfl⟩

/-- C8: starting a second announcer replaces the tracked head of the module
state with the new instance while the first instance stays in the state
exactly as constructed — its thread-alive bit still set and its run-state
flag still false (it was not stopped). -/
theorem C8_theorem (h1 s1 u1 d1 n1 h2 s2 u2 d2 n2 : List Char) (g : SSDPModuleState) :
    start_ssdp h2 s2 u2 d2 n2 (start_ssdp h1 s1 u1 d1 n1 g)
      = ⟨(SSDP.init h2 s2 u2 d2 n2, true)
          :: ((SSDP.init h1 s1 u1 d1 n1, true) :: g.history)⟩
    ∧ (SSDP.init h1 s1 u1 d1 n1).__stop = false :=
  ⟨rfl, rfl⟩

/-- C9: constructions that differ only in server_name and/or description
produce identical announcement bytes and identical descriptor documents. -/
theorem C9_theorem (host url hn sn1 d1 sn2 d2 : List Char) :
    (SSDP.init host sn1 url d1 hn).__mySSDPbroadcast
      = (SSDP.init host sn2 url d2 hn).__mySSDPbroadcast
    ∧ (SSDP.init host sn1 url d1 hn).__myxml
      = (SSDP.init host sn2 url d2 hn).__myxml :=
  ⟨rfl, rfl⟩

/-- C10: the two empty results are distinct values — serve_xml of a stopped
instance is the absent value (Python None), server_ssdp_xml with no running
tracked instance is the empty string — and on the transient state inside
stop_ssdp (flag already set, thread not yet joined) server_ssdp_xml forwards
serve_xml and itself returns the absent value. -/
theorem C10_theorem (s : SSDP) (rest : List (SSDP × Bool)) :
    SSDP.serve_xml (SSDP.stop s) = none
    ∧ server_ssdp_xml initialModuleState = some []
    ∧ (none : Option (List Char)) ≠ some []
    ∧ stopNoJoin ⟨(s, true) :: rest⟩ = ⟨(SSDP.stop s, true) :: rest⟩
    ∧ server_ssdp_xml ⟨(SSDP.stop s, true) :: rest⟩ = none :=
  ⟨rfl, rfl, by simp, rfl, rfl⟩
